import Mathlib

/-!
# Verification of the cpparg command-line argument parsing library

Shallow embedding of `cpparg.hpp`: the option table (`Opt`, `OptionParser`),
the result accumulator (`ParsedOption`, `ParseResult`), the parsing engine
(`OptionParser.parse`, `OptionParser.parse_argv`), the help formatter
(`detail.word_wrap`, `OptionParser.get_option_help`) and the numeric
converter (`convert_to`).

C++ `std::string` / `std::string_view` values are modelled as Lean `String`
(a structure holding a `List Char`); iterators into a character sequence are
modelled as the suffix starting at the iterator. Machine integers of width
`w` are modelled as `Nat` magnitudes with explicit `2^w` bounds, and the
final converted value as `Int`. Fallible operations return `Except`.
-/

/-! ## String primitives used by the embedding -/

/-- `s.starts_with(p)`: `p.data` is a prefix of `s.data`. -/
def strStartsWith (s p : String) : Bool :=
  p.data.isPrefixOf s.data

/-- `s.substr(n)` / `remove_prefix(n)` on strings: drop the first `n` characters. -/
def strDrop (s : String) (n : Nat) : String :=
  ⟨s.data.drop n⟩

/-- `s.substr(0, n)`: take the first `n` characters. -/
def strTake (s : String) (n : Nat) : String :=
  ⟨s.data.take n⟩

/-- Split a character sequence at the first `=`, mirroring
`arg.find('=')` / `arg.substr(0, name_end)` / `arg.substr(name_end + 1)`:
returns the part before the first `=` and, when a `=` is present,
everything after it. -/
def splitCharsAtEq : List Char → List Char × Option (List Char)
  | [] => ([], none)
  | c :: cs =>
    if c = '=' then ([], some cs)
    else
      let r := splitCharsAtEq cs
      (c :: r.1, r.2)

/-- String-level wrapper of `splitCharsAtEq`. -/
def splitFirstEq (s : String) : String × Option String :=
  let r := splitCharsAtEq s.data
  (⟨r.1⟩, r.2.map (fun v => ⟨v⟩))

/-! ## Data model: Option, ParsedOption, ParseResult, ParseError -/

/-- `OptionParser::Option` (named `Opt` because `Option` is taken by the
Lean prelude): one declared flag. -/
structure Opt where
  short_flag : String
  long_flag : String
  arg_name : String
  description : String
deriving Repr, DecidableEq

/-- `Option::takes_argument`: the argument placeholder is non-empty. -/
def Opt.takes_argument (o : Opt) : Bool :=
  !(o.arg_name == "")

/-- `Option::requires_argument`: takes an argument and the placeholder does
not start with `[`. -/
def Opt.requires_argument (o : Opt) : Bool :=
  o.takes_argument && !(strStartsWith o.arg_name "[")

/-- `cpparg::ParseError`. -/
structure ParseError where
  originating_arg : Nat
  what : String
deriving Repr, DecidableEq

/-- `cpparg::ParsedOption`. -/
structure ParsedOption where
  name : String
  count : Nat
  arguments : List String
deriving Repr, DecidableEq

/-- `cpparg::ParseResult`. The C++ class also keeps a name-to-index hash
map `lookup`; it always maps a name to the unique entry of
`parsed_options` carrying that name, so the embedding recovers it by
searching `parsed_options` by name. -/
structure ParseResult where
  parsed_options : List ParsedOption
  positional_args : List String
deriving Repr, DecidableEq

/-- Shared body of the two `ParseResult::add_parsed_option` overloads:
bump the entry named `name` (inserting it first if absent) and append
`argument` to its argument list when one is given. -/
def addParsedOptionCore (name : String) (argument : Option String) :
    List ParsedOption → List ParsedOption
  | [] => [⟨name, 1, argument.toList⟩]
  | p :: ps =>
    if p.name = name then
      { p with count := p.count + 1, arguments := p.arguments ++ argument.toList } :: ps
    else
      p :: addParsedOptionCore name argument ps

/-- `ParseResult::add_parsed_option(name)`: record a bare occurrence. -/
def ParseResult.add_parsed_option (res : ParseResult) (name : String) : ParseResult :=
  { res with parsed_options := addParsedOptionCore name none res.parsed_options }

/-- `ParseResult::add_parsed_option(name, argument)`: record an occurrence
with a captured argument. -/
def ParseResult.add_parsed_option_arg (res : ParseResult) (name argument : String) :
    ParseResult :=
  { res with parsed_options := addParsedOptionCore name (some argument) res.parsed_options }

/-- `ParseResult::add_positional_argument`. -/
def ParseResult.add_positional_argument (res : ParseResult) (argument : String) :
    ParseResult :=
  { res with positional_args := res.positional_args ++ [argument] }

/-- `ParseResult::add_positional_arguments(first, last)`. -/
def ParseResult.add_positional_arguments (res : ParseResult) (args : List String) :
    ParseResult :=
  { res with positional_args := res.positional_args ++ args }

/-- `ParseResult::count(name)`. -/
def ParseResult.count (res : ParseResult) (name : String) : Nat :=
  match res.parsed_options.find? (fun p => p.name == name) with
  | some p => p.count
  | none => 0

/-- `ParseResult::get_last_argument_for_option(name)`. -/
def ParseResult.get_last_argument_for_option (res : ParseResult) (name : String) :
    Option String :=
  match res.parsed_options.find? (fun p => p.name == name) with
  | some p => p.arguments.getLast?
  | none => none

/-- `ParseResult::get_arguments_for_option(name)`. -/
def ParseResult.get_arguments_for_option (res : ParseResult) (name : String) :
    List String :=
  match res.parsed_options.find? (fun p => p.name == name) with
  | some p => p.arguments
  | none => []

/-! ## Option table -/

/-- `cpparg::OptionParser`: owns the declared options in declaration order. -/
structure OptionParser where
  options : List Opt
deriving Repr, DecidableEq

/-- `OptionParser::add_option`: truncate the short flag to one character,
normalize the argument placeholder for help display, default the long
flag to the short flag, and append the option. -/
def OptionParser.add_option (p : OptionParser)
    (short_flag long_flag arg_name description : String) : OptionParser :=
  let short_flag := if 1 < short_flag.length then strTake short_flag 1 else short_flag
  let arg_name :=
    if strStartsWith arg_name "=" then
      -- Required argument starting with =: no long flag drops the =
      if long_flag = "" then strDrop arg_name 1 else arg_name
    else if strStartsWith arg_name "[" then
      if long_flag = "" then
        -- No long flag: collapse [= to [
        if strStartsWith arg_name "[=" then ⟨'[' :: arg_name.data.drop 2⟩ else arg_name
      else
        -- Long flag present: normalize [ to [=
        if strStartsWith arg_name "[=" then arg_name else ⟨'[' :: '=' :: arg_name.data.drop 1⟩
    else if arg_name ≠ "" then
      -- Required argument not starting with =: insert leading space
      ⟨' ' :: arg_name.data⟩
    else arg_name
  let long_flag := if long_flag = "" then short_flag else long_flag
  { options := p.options ++ [⟨short_flag, long_flag, arg_name, description⟩] }

/-- `OptionParser::find_long_option`: first option whose long flag equals
`name`. -/
def find_long_option (opts : List Opt) (name : String) : Option Opt :=
  opts.find? (fun o => o.long_flag == name)

/-- `OptionParser::find_short_option`: first option whose short flag equals
`flag`. -/
def find_short_option (opts : List Opt) (flag : String) : Option Opt :=
  opts.find? (fun o => o.short_flag == flag)

/-! ## Parsing engine -/

/-- Outcome of the short-option cluster loop, as seen by the element loop:
either the cluster was fully handled, or its last character names an
option that requires an argument and the next element must be consumed,
or an unrecognized flag was hit. -/
inductive ShortStep where
  | done (res : ParseResult)
  | needNext (long_flag flag : String) (res : ParseResult)
  | fail (e : ParseError)
deriving Repr, DecidableEq

/-- The `for (pos = 0; pos < arg.size(); ++pos)` loop over a short-option
cluster. `cluster` is the element with its leading `-` removed; `chars`
is the suffix of `cluster` from the current position. -/
def shortLoop (opts : List Opt) (cluster : String) (idx : Nat) :
    List Char → ParseResult → ShortStep
  | [], res => .done res
  | c :: cs, res =>
    let flag : String := ⟨[c]⟩
    match find_short_option opts flag with
    | none =>
      .fail ⟨idx, "unrecognized short option " ++ flag ++ " in -" ++ cluster⟩
    | some o =>
      if !o.takes_argument then
        shortLoop opts cluster idx cs (res.add_parsed_option o.long_flag)
      else if cs ≠ [] then
        -- More characters: rest of cluster is the inline argument
        .done (res.add_parsed_option_arg o.long_flag ⟨cs⟩)
      else if !o.requires_argument then
        .done (res.add_parsed_option o.long_flag)
      else
        .needNext o.long_flag flag res

/-- The main element loop of `OptionParser::parse`, over the remaining
elements with the current element index and the accumulated result.

The loop consumes at least one element per iteration, so `parse` supplies
fuel equal to the element count and the zero-fuel case with elements left
is unreachable; recursing on the fuel keeps the definition structurally
recursive and its equations directly usable. -/
def parseLoop (opts : List Opt) : Nat → List String → Nat → ParseResult →
    Except ParseError ParseResult
  | _, [], _, res => .ok res
  | 0, _ :: _, _, res => .ok res
  | fuel + 1, arg :: rest, idx, res =>
    if !(strStartsWith arg "-") || arg == "-" then
      -- Nonoption element (including "-")
      parseLoop opts fuel rest (idx + 1) (res.add_positional_argument arg)
    else if strStartsWith arg "--" then
      if arg == "--" then
        .ok (res.add_positional_arguments rest)
      else
        let argStripped := strDrop arg 2
        let split := splitFirstEq argStripped
        let name := split.1
        match find_long_option opts name with
        | none =>
          .error ⟨idx, "unrecognized long option --" ++ name⟩
        | some o =>
          match split.2 with
          | some argument =>
            -- Option argument included in element (--foo=argument)
            if !o.takes_argument then
              .error ⟨idx, "extraneous argument in --" ++ argStripped⟩
            else
              parseLoop opts fuel rest (idx + 1) (res.add_parsed_option_arg name argument)
          | none =>
            if o.requires_argument then
              match rest with
              | [] => .error ⟨idx, "missing required argument for --" ++ argStripped⟩
              | v :: rest2 =>
                parseLoop opts fuel rest2 (idx + 2) (res.add_parsed_option_arg name v)
            else
              parseLoop opts fuel rest (idx + 1) (res.add_parsed_option name)
    else
      let cluster := strDrop arg 1
      match shortLoop opts cluster idx cluster.data res with
      | .fail e => .error e
      | .done res2 => parseLoop opts fuel rest (idx + 1) res2
      | .needNext lf flag res2 =>
        match rest with
        | [] =>
          .error ⟨idx, "missing required argument for " ++ flag ++ " in -" ++ cluster⟩
        | v :: rest2 =>
          parseLoop opts fuel rest2 (idx + 2) (res2.add_parsed_option_arg lf v)

/-- `OptionParser::parse(first, last)`. -/
def OptionParser.parse (p : OptionParser) (args : List String) :
    Except ParseError ParseResult :=
  parseLoop p.options args.length args 0 ⟨[], []⟩

/-- `OptionParser::parse_argv(argc, argv)`: `argv` modelled as the list of
its `argc` strings. -/
def OptionParser.parse_argv (p : OptionParser) (argv : List String) :
    Except ParseError ParseResult :=
  if argv.length < 1 then
    .error ⟨0, "argc less than 1"⟩
  else
    match p.parse (argv.drop 1) with
    | .error e => .error ⟨e.originating_arg + 1, e.what⟩
    | .ok r => .ok r

/-- The parser declared by the fuzz harness and used throughout the tests:
a no-argument option, an optional-argument option and a
required-argument option. -/
def default_table : OptionParser :=
  (((⟨[]⟩ : OptionParser).add_option "n" "noarg" "" "option with no argument")
    |>.add_option "o" "optarg" "[ARG]" "option with optional argument")
    |>.add_option "r" "reqarg" "ARG" "option with required argument"

example : default_table.parse ["--optarg=arg1", "--optarg", "--optarg=arg2"] =
    .ok ⟨[⟨"optarg", 3, ["arg1", "arg2"]⟩], []⟩ := by rfl

example : default_table.parse ["--", "-n", "--reqarg"] =
    .ok ⟨[], ["-n", "--reqarg"]⟩ := by rfl

example : default_table.parse_argv ["prog", "-u"] =
    .error ⟨1, "unrecognized short option u in -u"⟩ := by rfl

/-! ## Numeric converter -/

/-- The two `std::errc` conditions `convert_to` can return. -/
inductive Errc where
  | invalid_argument
  | result_out_of_range
deriving Repr, DecidableEq

/-- The `sv.starts_with('-')` / `remove_prefix(1)` step of `convert_to`:
whether a leading minus was present, and the remaining characters. -/
def stripSign (cs : List Char) : Bool × List Char :=
  if cs.head? = some '-' then (true, cs.tail) else (false, cs)

/-- Value of a character as a digit: `0`..`9`, letters case-insensitively
from 10; non-digit characters get the sentinel 99, which is rejected by
every base up to 36. -/
def digitVal (c : Char) : Nat :=
  if '0' ≤ c ∧ c ≤ '9' then c.toNat - '0'.toNat
  else if 'a' ≤ c ∧ c ≤ 'z' then c.toNat - 'a'.toNat + 10
  else if 'A' ≤ c ∧ c ≤ 'Z' then c.toNat - 'A'.toNat + 10
  else 99

/-- Digit-consuming loop of `std::from_chars`: accumulate digits of
`base` onto `acc`, stopping at the first non-digit. -/
def takeDigits (base : Nat) : List Char → Nat → Nat × List Char
  | [], acc => (acc, [])
  | c :: cs, acc =>
    if digitVal c < base then takeDigits base cs (acc * base + digitVal c)
    else (acc, c :: cs)

/-- `std::from_chars` on an unsigned type, with the value kept as an exact
`Nat`: parses the longest prefix of digits of `base` and returns its value
together with the unconsumed suffix, or `none` when no digit is present
(the `invalid_argument` case of `from_chars`). The caller compares the
value against `2^w` for the `result_out_of_range` case. -/
def fromCharsNat (base : Nat) : List Char → Option Nat × List Char
  | [] => (none, [])
  | c :: cs =>
    if digitVal c < base then
      let r := takeDigits base cs (digitVal c)
      (some r.1, r.2)
    else (none, c :: cs)

/-- The base-prefix handling block of `convert_to` (explicit-base `0x`/`0b`
stripping followed by base-0 auto-detection): returns the resolved base and
the remaining characters. -/
def stripBasePrefix (base : Nat) (cs : List Char) : Nat × List Char :=
  let cs :=
    if base = 16 ∧ (['0', 'x'].isPrefixOf cs ∨ ['0', 'X'].isPrefixOf cs) then cs.drop 2
    else cs
  let cs :=
    if base = 2 ∧ (['0', 'b'].isPrefixOf cs ∨ ['0', 'B'].isPrefixOf cs) then cs.drop 2
    else cs
  if base = 0 then
    match cs with
    | '0' :: c :: t =>
      if c = 'x' ∨ c = 'X' then (16, t)
      else if c = 'b' ∨ c = 'B' then (2, t)
      else (8, c :: t)
    | _ => (10, cs)
  else (base, cs)

/-- `cpparg::convert_to<T>(sv, base)` for a non-bool integral `T` of bit
width `w` (signedness in `sgnd`): strip an optional leading minus, resolve
the base, parse the digits into the unsigned magnitude, require the whole
string consumed, range-check a signed target against the unsigned
magnitude, and negate by unsigned wraparound. The returned `Int` is the
value of the resulting `T`. -/
def convert_to (w : Nat) (sgnd : Bool) (sv : String) (base : Nat) : Except Errc Int :=
  let sign := stripSign sv.data
  let negative := sign.1
  let resolved := stripBasePrefix base sign.2
  match fromCharsNat resolved.1 resolved.2 with
  | (none, _) => .error .invalid_argument
  | (some v, rest) =>
    if 2 ^ w ≤ v then
      -- from_chars overflowed the unsigned type
      .error .result_out_of_range
    else if rest ≠ [] then
      .error .invalid_argument
    else if sgnd ∧ 2 ^ (w - 1) - 1 + (if negative then 1 else 0) < v then
      .error .result_out_of_range
    else
      let m := if negative then (2 ^ w - v) % 2 ^ w else v
      .ok (if sgnd ∧ 2 ^ (w - 1) ≤ m then (m : Int) - 2 ^ w else (m : Int))

-- The static_asserts of cpparg.hpp, at int = 32 bits
example : convert_to 32 true "42" 10 = .ok 42 := by rfl
example : convert_to 32 true "-42" 10 = .ok (-42) := by rfl
example : convert_to 32 false "-1" 10 = .ok (2 ^ 32 - 1) := by rfl

example : convert_to 8 false "-1" 10 = .ok 255 := by rfl
example : convert_to 8 true "128" 10 = .error .result_out_of_range := by rfl
example : convert_to 8 true "-128" 10 = .ok (-128) := by rfl
example : convert_to 32 true "0x20" 0 = .ok 32 := by rfl
example : convert_to 32 true "0644" 0 = .ok 420 := by rfl
example : convert_to 32 true "0b1011" 0 = .ok 11 := by rfl
example : convert_to 32 true "20h" 10 = .error .invalid_argument := by rfl
example : convert_to 32 true " 42" 10 = .error .invalid_argument := by rfl
example : convert_to 32 true "42 " 10 = .error .invalid_argument := by rfl

/-- The two magnitude-suffix modes of the extended converter. -/
inductive KiloMultiplier where
  | decimal
  | binary
deriving Repr, DecidableEq

/-- Modelled from the spec: scale factor of a magnitude-suffix character.
The suffix-mode converter `cpparg::convert_to<T, KiloMultiplier>` is
declared and exercised by the fuzz harness and the tests but its
definition is not among the provided sources; per the spec, a
case-insensitive suffix k/m/g/t/p/e scales by successive powers of
`10^3` (decimal mode) or `2^10` (binary mode). -/
def suffixFactor (mult : KiloMultiplier) (c : Char) : Option Nat :=
  let k : Nat := match mult with
    | .decimal => 1000
    | .binary => 1024
  if c = 'k' ∨ c = 'K' then some k
  else if c = 'm' ∨ c = 'M' then some (k ^ 2)
  else if c = 'g' ∨ c = 'G' then some (k ^ 3)
  else if c = 't' ∨ c = 'T' then some (k ^ 4)
  else if c = 'p' ∨ c = 'P' then some (k ^ 5)
  else if c = 'e' ∨ c = 'E' then some (k ^ 6)
  else none

/-- Modelled from the spec: `cpparg::convert_to<T, KiloMultiplier>` — the
magnitude-suffix mode of the converter, absent from the provided sources.
Identical to `convert_to` except that one optional suffix character is
consumed after the digits and scales the magnitude before all range
checks; overflow of the scaled value is an out-of-range failure. -/
def convert_to_kilo (w : Nat) (sgnd : Bool) (mult : KiloMultiplier)
    (sv : String) (base : Nat) : Except Errc Int :=
  let sign := stripSign sv.data
  let negative := sign.1
  let resolved := stripBasePrefix base sign.2
  match fromCharsNat resolved.1 resolved.2 with
  | (none, _) => .error .invalid_argument
  | (some v, rest) =>
    let scaled : Nat × List Char :=
      match rest with
      | [] => (v, [])
      | c :: rest2 =>
        match suffixFactor mult c with
        | some f => (v * f, rest2)
        | none => (v, c :: rest2)
    let v := scaled.1
    let rest := scaled.2
    if 2 ^ w ≤ v then
      .error .result_out_of_range
    else if rest ≠ [] then
      .error .invalid_argument
    else if sgnd ∧ 2 ^ (w - 1) - 1 + (if negative then 1 else 0) < v then
      .error .result_out_of_range
    else
      let m := if negative then (2 ^ w - v) % 2 ^ w else v
      .ok (if sgnd ∧ 2 ^ (w - 1) ≤ m then (m : Int) - 2 ^ w else (m : Int))

example : convert_to_kilo 16 true .binary "31k" 10 = .ok 31744 := by rfl
example : convert_to_kilo 16 true .binary "32k" 10 = .error .result_out_of_range := by rfl
example : convert_to_kilo 16 true .binary "-32k" 10 = .ok (-32768) := by rfl
example : convert_to_kilo 64 true .decimal "1e" 10 = .ok 1000000000000000000 := by rfl

/-! ## Help formatter

C++ iterators into the wrapped character sequence are modelled as the
suffix of the sequence starting at the iterator; `std::find_if(it, end, p)`
becomes `find_if p` on the suffix, iterator difference becomes the
difference of suffix lengths, and `it != sv.end()` becomes non-emptiness
of the suffix. -/

/-- `std::find_if(it, end, p)`: the suffix starting at the first character
satisfying `p` (empty if none does). -/
def find_if (p : Char → Bool) : List Char → List Char
  | [] => []
  | c :: cs => if p c then c :: cs else find_if p cs

/-- The `while (space_begin != sv.end())` loop of `detail::word_wrap`,
followed by the final flush of `[line_start, sv.end())`. `line_start` and
`space_begin` are the suffixes at the two loop iterators; emitted lines
are `[line_start, space_begin)`, that is `line_start` truncated to the
length difference. The loop advances `space_begin` past at least one
character per iteration, so fuel `sv.length + 1` never runs out. -/
def wrapLoop (width : Nat) : Nat → List Char → List Char → List (List Char) →
    List (List Char)
  | 0, _, _, acc => acc
  | _ + 1, line_start, [], acc =>
    if line_start.isEmpty then acc else acc ++ [line_start]
  | fuel + 1, line_start, c :: cs, acc =>
    let space_begin := c :: cs
    let space_end := find_if (fun ch => !(ch == ' ')) space_begin
    let next_space_begin := find_if (fun ch => ch == ' ') space_end
    -- If breaking at the next space would exceed width, break here
    if width < line_start.length - next_space_begin.length then
      wrapLoop width fuel space_end next_space_begin
        (acc ++ [line_start.take (line_start.length - space_begin.length)])
    else
      wrapLoop width fuel line_start next_space_begin acc

/-- `detail::word_wrap(sv, width)`: break `sv` into lines of length at most
`width`, breaking only at spaces. -/
def word_wrap (sv : List Char) (width : Nat) : List (List Char) :=
  -- Skip leading space
  let line_start := find_if (fun ch => !(ch == ' ')) sv
  let space_begin := find_if (fun ch => ch == ' ') line_start
  wrapLoop width (sv.length + 1) line_start space_begin []

example : word_wrap "word wrap this text at ten".data 10 =
    ["word wrap", "this text", "at ten"].map String.data := by rfl
example : word_wrap "".data 10 = [] := by rfl
example : word_wrap "   ".data 10 = [] := by rfl

/-- `n` spaces, as appended by `option_line.append(leading_space, ' ')`. -/
def spaces (n : Nat) : String :=
  ⟨List.replicate n ' '⟩

/-- The `for (auto line : wrapped_description)` loop of
`get_option_help`: append each wrapped line with its leading padding and a
line break, resetting the padding to `flags_len` after the first line. -/
def descLines (flags_len : Nat) : List (List Char) → Nat → String → String
  | [], _, acc => acc
  | l :: ls, leading_space, acc =>
    descLines flags_len ls flags_len (acc ++ spaces leading_space ++ ⟨l⟩ ++ "\n")

/-- The `max_flags_length` lambda of `get_option_help`: the longest
"  -f, --long<arg>  " flags part over all options. -/
def max_flags_length (options : List Opt) : Nat :=
  options.foldl (fun m o => max m (8 + o.long_flag.length + o.arg_name.length + 2)) 0

/-- The flags-part length limit of `get_option_help`. -/
def flags_len_limit : Nat := 29

/-- The flags part of an option's help line: short flag (or padding), long
flag when distinct, and the argument placeholder. -/
def option_flags (o : Opt) : String :=
  -- Add short flag or space
  let option_line := if o.short_flag = "" then "    " else "  -" ++ o.short_flag
  -- Add long flag if present
  let option_line :=
    if o.long_flag ≠ "" ∧ o.long_flag ≠ o.short_flag then
      option_line ++ (if o.short_flag ≠ "" then ", " else "  ") ++ "--" ++ o.long_flag
    else option_line
  -- Add option argument
  option_line ++ o.arg_name

/-- The per-option block of `get_option_help`: flags part, then the
description padded to the flags column (on a fresh line when the flags
part is too long), word wrapped when `line_width` is nonzero. -/
def option_help (flags_len line_width : Nat) (o : Opt) : String :=
  let option_line := option_flags o
  -- Find leading space before description for first line
  let padded : String × Nat :=
    if flags_len < option_line.length + 2 then (option_line ++ "\n", flags_len)
    else (option_line, flags_len - option_line.length)
  if line_width ≠ 0 then
    descLines flags_len (word_wrap o.description.data (line_width - flags_len))
      padded.2 padded.1
  else
    padded.1 ++ spaces padded.2 ++ o.description ++ "\n"

/-- `OptionParser::get_option_help(line_width)`. -/
def OptionParser.get_option_help (p : OptionParser) (line_width : Nat) : String :=
  let flags_len := min flags_len_limit (max_flags_length p.options)
  -- Adjust line width to at least flags_len
  let line_width := if line_width ≠ 0 ∧ line_width < flags_len then flags_len else line_width
  String.join (p.options.map (option_help flags_len line_width))

example :
    (((⟨[]⟩ : OptionParser).add_option "f" "foo" "" "desc one")
      |>.add_option "g" "goo" "" "desc two").get_option_help 0 =
    "  -f, --foo  desc one\n  -g, --goo  desc two\n" := by rfl

example :
    (((⟨[]⟩ : OptionParser).add_option "f" "foo" "" "")
      |>.add_option "g" "goo" "" "").get_option_help 40 =
    "  -f, --foo  -g, --goo" := by rfl

/-- A table declaring x, y and z as no-argument short flags with long
names xopt, yopt, zopt. -/
def xyz_table : OptionParser :=
  (((⟨[]⟩ : OptionParser).add_option "x" "xopt" "" "")
    |>.add_option "y" "yopt" "" "")
    |>.add_option "z" "zopt" "" ""

/-! ## Claim theorems -/

/-! Helper lemmas about the string primitives, shared by the parsing
theorems. -/

theorem strStartsWith_dash (t : List Char) : strStartsWith ⟨'-' :: t⟩ "-" = true := by
  show List.isPrefixOf "-".data ('-' :: t) = true
  have h : "-".data = ['-'] := rfl
  rw [h]
  simp [List.isPrefixOf]

theorem mk_cons2_beq_dash (a : Char) (t : List Char) :
    ((⟨'-' :: a :: t⟩ : String) == "-") = false := by
  simp [String.ext_iff]

theorem strStartsWith_ddash_of_ne (a : Char) (t : List Char) (h : a ≠ '-') :
    strStartsWith ⟨'-' :: a :: t⟩ "--" = false := by
  show List.isPrefixOf "--".data ('-' :: a :: t) = false
  have h2 : "--".data = ['-', '-'] := rfl
  rw [h2]
  simp [List.isPrefixOf, h, Ne.symm h]

theorem strStartsWith_ddash_mk (t : List Char) :
    strStartsWith ⟨'-' :: '-' :: t⟩ "--" = true := by
  show List.isPrefixOf "--".data ('-' :: '-' :: t) = true
  have h2 : "--".data = ['-', '-'] := rfl
  rw [h2]
  simp [List.isPrefixOf]

/-- C1: For every option table and argument sequence, an element that is
exactly `--` makes the engine return success immediately, appending every
element after the `--` (not the `--` itself) verbatim and in order to the
positional arguments with no further option classification; `--` as the
final element adds zero positional arguments, and elements after `--`
that look like flags are still taken as positional. -/
theorem parse_double_dash_terminator (opts : List Opt) (fuel : Nat)
    (rest : List String) (idx : Nat) (res : ParseResult) :
    parseLoop opts (fuel + 1) ("--" :: rest) idx res =
      .ok { res with positional_args := res.positional_args ++ rest } ∧
    (∀ p : OptionParser, p.parse ("--" :: rest) = .ok ⟨[], rest⟩) ∧
    (∀ p : OptionParser, p.parse ["--"] = .ok ⟨[], []⟩) := by
  have h1 : ∀ (os : List Opt) (f : Nat) (r2 : List String) (i : Nat) (r : ParseResult),
      parseLoop os (f + 1) ("--" :: r2) i r = .ok (r.add_positional_arguments r2) := by
    intro os f r2 i r
    simp only [parseLoop]
    rw [if_neg (by decide), if_pos (by decide), if_pos (by decide)]
  refine ⟨?_, fun p => ?_, fun p => ?_⟩
  · rw [h1]
    rfl
  · show parseLoop _ (("--" :: rest).length) _ _ _ = _
    rw [List.length_cons, h1]
    simp [ParseResult.add_positional_arguments]
  · show parseLoop _ 1 _ _ _ = _
    rw [h1]
    rfl

/-- C3: On a table whose option `optarg` has the optional-argument
placeholder `[ARG]`, parsing `--optarg=arg1 --optarg --optarg=arg2`
succeeds with exactly one ParsedOption, named "optarg", with count 3 and
arguments ["arg1", "arg2"] in order; `get_last_argument_for_option` then
returns "arg2", and no positional argument is produced (the bare middle
occurrence leaves the next element unconsumed). -/
theorem parse_optional_argument_accumulation :
    default_table.parse ["--optarg=arg1", "--optarg", "--optarg=arg2"] =
      .ok ⟨[⟨"optarg", 3, ["arg1", "arg2"]⟩], []⟩ ∧
    (ParseResult.mk [⟨"optarg", 3, ["arg1", "arg2"]⟩] []).get_last_argument_for_option
      "optarg" = some "arg2" ∧
    (ParseResult.mk [⟨"optarg", 3, ["arg1", "arg2"]⟩] []).count "optarg" = 3 := by
  refine ⟨rfl, rfl, rfl⟩

/-- C5: `parse_argv` with argument count less than 1 fails immediately with
a structural error; with count at least 1 it parses exactly the arguments
from index 1 on (argument 0 is never parsed), and a ParseError coming back
from the engine has its originating_arg incremented by 1, so an unknown
flag `-u` or `--unknown` as the sole second argument fails with
`originating_arg == 1`. -/
theorem parse_argv_program_name_offset :
    (∀ p : OptionParser, p.parse_argv [] = .error ⟨0, "argc less than 1"⟩) ∧
    (∀ (p : OptionParser) (prog : String) (args : List String),
      p.parse_argv (prog :: args) =
        match p.parse args with
        | .error e => .error ⟨e.originating_arg + 1, e.what⟩
        | .ok r => .ok r) ∧
    default_table.parse_argv ["prog", "-u"] =
      .error ⟨1, "unrecognized short option u in -u"⟩ ∧
    default_table.parse_argv ["prog", "--unknown"] =
      .error ⟨1, "unrecognized long option --unknown"⟩ := by
  refine ⟨fun p => rfl, fun p prog args => ?_, rfl, rfl⟩
  show (if (prog :: args).length < 1 then _ else _) = _
  rw [if_neg (by simp)]
  rfl

/-- C8: The magnitude-suffix converter scales a case-insensitive k/m/g/t/p/e
suffix by successive powers of 10^3 (decimal) or 2^10 (binary), with the
range check applied to the scaled value, so that for a signed 16-bit
target with binary suffixes "32k" fails out-of-range while "31k" succeeds
as 31*1024. -/
theorem convert_to_kilo_suffix_scaling :
    convert_to_kilo 64 true .decimal "1k" 10 = .ok 1000 ∧
    convert_to_kilo 64 true .decimal "1m" 10 = .ok 1000000 ∧
    convert_to_kilo 64 true .decimal "1g" 10 = .ok 1000000000 ∧
    convert_to_kilo 64 true .decimal "1t" 10 = .ok 1000000000000 ∧
    convert_to_kilo 64 true .decimal "1p" 10 = .ok 1000000000000000 ∧
    convert_to_kilo 64 true .decimal "1e" 10 = .ok 1000000000000000000 ∧
    convert_to_kilo 64 true .decimal "1K" 10 = .ok 1000 ∧
    convert_to_kilo 64 true .binary "1k" 10 = .ok 1024 ∧
    convert_to_kilo 64 true .binary "1m" 10 = .ok 1048576 ∧
    convert_to_kilo 64 true .binary "1g" 10 = .ok 1073741824 ∧
    convert_to_kilo 64 true .binary "1t" 10 = .ok (2 ^ 40) ∧
    convert_to_kilo 64 true .binary "1p" 10 = .ok (2 ^ 50) ∧
    convert_to_kilo 64 true .binary "1e" 10 = .ok (2 ^ 60) ∧
    convert_to_kilo 64 true .binary "1E" 10 = .ok (2 ^ 60) ∧
    convert_to_kilo 16 true .binary "32k" 10 = .error .result_out_of_range ∧
    convert_to_kilo 16 true .binary "31k" 10 = .ok 31744 ∧
    convert_to_kilo 16 true .binary "-32k" 10 = .ok (-32768) ∧
    convert_to_kilo 16 true .decimal "33k" 10 = .error .result_out_of_range ∧
    convert_to_kilo 16 true .decimal "32k" 10 = .ok 32000 := by
  refine ⟨rfl, rfl, rfl, rfl, rfl, rfl, rfl, rfl, rfl, rfl, rfl, rfl, rfl, rfl,
    rfl, rfl, rfl, rfl, rfl⟩

/-- C9 counterexample: it is not the case that every `add_option` call
stores an option with a non-empty `long_flag` — with both flags empty the
stored `long_flag` is empty. -/
theorem add_option_empty_long_flag_counterexample :
    ¬ (∀ (p : OptionParser) (s l a d : String),
        ∀ o ∈ (p.add_option s l a d).options, o.long_flag ≠ "") := by
  intro h
  exact h ⟨[]⟩ "" "" "" "" ⟨"", "", "", ""⟩ (by decide) rfl

/-- C9 (amended): for every `add_option` call in which the short flag or
the long flag is non-empty, the stored option's `long_flag` is non-empty:
it equals the given long flag when that is non-empty and otherwise falls
back to the stored (truncated) short flag's text. -/
theorem add_option_long_flag_fallback (p : OptionParser) (s l a d : String)
    (h : s ≠ "" ∨ l ≠ "") :
    ∃ o : Opt, (p.add_option s l a d).options = p.options ++ [o] ∧
      (l ≠ "" → o.long_flag = l) ∧
      (l = "" → o.long_flag = o.short_flag) ∧
      o.long_flag ≠ "" := by
  simp only [OptionParser.add_option]
  refine ⟨_, rfl, fun hl => ?_, fun hl => ?_, ?_⟩
  · simp only [if_neg hl]
  · simp only [if_pos hl]
  · rcases eq_or_ne l "" with hl | hl
    · subst hl
      have hs : s ≠ "" := h.resolve_right (by simp)
      simp only [if_pos rfl]
      have hd : s.data ≠ [] := fun hnil => hs (String.ext hnil)
      rcases hds : s.data with _ | ⟨c, t⟩
      · exact absurd hds hd
      · by_cases hlen : 1 < s.length
        · simp only [if_pos hlen, strTake, hds]
          intro hcon
          have := congrArg String.data hcon
          simp at this
        · simp only [if_neg hlen]
          exact hs
    · simp only [if_neg hl]
      exact hl

/-- C9 witness. -/
theorem add_option_long_flag_fallback_witness :
    ∃ o : Opt, ((⟨[]⟩ : OptionParser).add_option "f" "" "" "").options = [] ++ [o] ∧
      (("" : String) ≠ "" → o.long_flag = "") ∧
      (("" : String) = "" → o.long_flag = o.short_flag) ∧
      o.long_flag ≠ "" :=
  add_option_long_flag_fallback ⟨[]⟩ "f" "" "" "" (Or.inl (by decide))

/-- C10 counterexample: with a nonzero wrap width and empty descriptions,
`get_option_help` emits no line break at all — two declared options come
back sharing one line with no trailing line break — so the claimed
per-option trailing line break does not hold for every option set and
every wrap width. -/
theorem get_option_help_no_line_break_counterexample :
    (((⟨[]⟩ : OptionParser).add_option "f" "foo" "" "")
      |>.add_option "g" "goo" "" "").get_option_help 40 =
      "  -f, --foo  -g, --goo" ∧
    '\n' ∉ ((((⟨[]⟩ : OptionParser).add_option "f" "foo" "" "")
      |>.add_option "g" "goo" "" "").get_option_help 40).data := by
  exact ⟨rfl, by decide⟩

/-- C4: For every table in which three characters are declared no-argument
short flags, parsing the single cluster element built from those three
characters records one occurrence of each option under its canonical long
name and produces no positional argument; on a concrete table declaring
x, y and z, parsing `-xyz` yields three ParsedOption entries, each with
count 1, and no positional arguments. -/
theorem parse_short_cluster_noarg (opts : List Opt) (a b c : Char)
    (oa ob oc : Opt)
    (ha : find_short_option opts ⟨[a]⟩ = some oa) (hta : oa.takes_argument = false)
    (hb : find_short_option opts ⟨[b]⟩ = some ob) (htb : ob.takes_argument = false)
    (hc : find_short_option opts ⟨[c]⟩ = some oc) (htc : oc.takes_argument = false)
    (hdash : a ≠ '-')
    (fuel : Nat) (rest : List String) (idx : Nat) (res : ParseResult) :
    parseLoop opts (fuel + 1) (⟨['-', a, b, c]⟩ :: rest) idx res =
      parseLoop opts fuel rest (idx + 1)
        (((res.add_parsed_option oa.long_flag).add_parsed_option
          ob.long_flag).add_parsed_option oc.long_flag) ∧
    xyz_table.parse ["-xyz"] =
      .ok ⟨[⟨"xopt", 1, []⟩, ⟨"yopt", 1, []⟩, ⟨"zopt", 1, []⟩], []⟩ := by
  constructor
  · simp only [parseLoop, strStartsWith_dash, mk_cons2_beq_dash,
      strStartsWith_ddash_of_ne a _ hdash, Bool.not_true, Bool.false_or,
      Bool.or_false, if_false]
    simp only [strDrop]
    simp only [List.drop_succ_cons, List.drop_zero]
    simp only [shortLoop, ha, hb, hc, hta, htb, htc, Bool.not_false, if_true]
    simp
  · rfl

/-- Structure eta for the string embedding: rebuilding a string from its
characters gives the string back. -/
theorem mk_data (s : String) : (⟨s.data⟩ : String) = s := rfl

/-- A `--`-prefixed element with a non-empty name is not the bare `--`. -/
theorem mk_ddash_beq_ddash (l : List Char) (h : l ≠ []) :
    ((⟨'-' :: '-' :: l⟩ : String) == "--") = false := by
  simp [String.ext_iff]
  intro hcon
  exact absurd hcon h

/-- Splitting at the first `=` of an `=`-free character sequence returns
the whole sequence and no inline value. -/
theorem splitCharsAtEq_no_eq (l : List Char) (h : '=' ∉ l) :
    splitCharsAtEq l = (l, none) := by
  induction l with
  | nil => rfl
  | cons c cs ih =>
    simp only [List.mem_cons, not_or] at h
    simp only [splitCharsAtEq]
    rw [if_neg (fun hc => h.1 hc.symm), ih h.2]

/-- Running the short-cluster loop over no-argument flags followed by one
flag requiring an argument records the no-argument occurrences in order
and ends demanding the next element for the final flag. -/
theorem shortLoop_noarg_prefix (opts : List Opt) (cluster : String) (idx : Nat)
    (f : Char → Opt) (pre : List Char) :
    ∀ (hpre : ∀ d ∈ pre,
        find_short_option opts ⟨[d]⟩ = some (f d) ∧ (f d).takes_argument = false)
      (c : Char) (o : Opt),
      find_short_option opts ⟨[c]⟩ = some o →
      o.requires_argument = true →
      ∀ res : ParseResult,
        shortLoop opts cluster idx (pre ++ [c]) res =
          .needNext o.long_flag ⟨[c]⟩
            (pre.foldl (fun r d => r.add_parsed_option (f d).long_flag) res) := by
  induction pre with
  | nil =>
    intro _ c o hc hreq res
    have htake : o.takes_argument = true := by
      have h2 := hreq
      simp only [Opt.requires_argument, Bool.and_eq_true] at h2
      exact h2.1
    simp only [List.nil_append, shortLoop, hc, htake, hreq, List.foldl_nil]
    simp
  | cons d pre ih =>
    intro hpre c o hc hreq res
    have hd := hpre d (List.mem_cons_self d pre)
    simp only [List.cons_append, shortLoop, hd.1, hd.2, Bool.not_false, if_true,
      List.foldl_cons]
    exact ih (fun e he => hpre e (List.mem_cons_of_mem d he)) c o hc hreq _

/-- C2: An occurrence of a required-argument option — a long form without
inline `=value`, or a short form as the last character of its cluster
(any earlier characters being no-argument flags) — consumes the
immediately following element verbatim as the argument value, whatever
that element looks like; with no following element, parsing fails with a
missing-required-argument ParseError whose originating_arg is the index
of the option's own element. -/
theorem parse_required_argument_consumes_next :
    (∀ (opts : List Opt) (name : String) (o : Opt),
      find_long_option opts name = some o →
      o.requires_argument = true →
      '=' ∉ name.data →
      name ≠ "" →
      ∀ (fuel : Nat) (v : String) (rest : List String) (idx : Nat) (res : ParseResult),
        parseLoop opts (fuel + 1) (("--" ++ name) :: v :: rest) idx res =
          parseLoop opts fuel rest (idx + 2) (res.add_parsed_option_arg name v) ∧
        parseLoop opts (fuel + 1) [("--" ++ name)] idx res =
          .error ⟨idx, "missing required argument for --" ++ name⟩) ∧
    (∀ (opts : List Opt) (pre : List Char) (c : Char) (f : Char → Opt) (o : Opt),
      (∀ d ∈ pre,
        find_short_option opts ⟨[d]⟩ = some (f d) ∧ (f d).takes_argument = false) →
      find_short_option opts ⟨[c]⟩ = some o →
      o.requires_argument = true →
      (pre ++ [c]).head? ≠ some '-' →
      ∀ (fuel : Nat) (v : String) (rest : List String) (idx : Nat) (res : ParseResult),
        parseLoop opts (fuel + 1) (⟨'-' :: (pre ++ [c])⟩ :: v :: rest) idx res =
          parseLoop opts fuel rest (idx + 2)
            ((pre.foldl (fun r d => r.add_parsed_option (f d).long_flag)
              res).add_parsed_option_arg o.long_flag v) ∧
        parseLoop opts (fuel + 1) [(⟨'-' :: (pre ++ [c])⟩ : String)] idx res =
          .error ⟨idx, "missing required argument for " ++ (⟨[c]⟩ : String) ++
            " in -" ++ ⟨pre ++ [c]⟩⟩) := by
  constructor
  · intro opts name o hfind hreq hnoeq hne fuel v rest idx res
    have hdne : name.data ≠ [] := fun hnil => hne (String.ext hnil)
    have helem : ("--" ++ name) = (⟨'-' :: '-' :: name.data⟩ : String) := rfl
    have hsplit : splitFirstEq (⟨name.data⟩ : String) = (name, none) := by
      simp [splitFirstEq, splitCharsAtEq_no_eq name.data hnoeq, mk_data]
    constructor <;>
    · rw [helem]
      simp only [parseLoop, strStartsWith_dash, mk_cons2_beq_dash,
        strStartsWith_ddash_mk, mk_ddash_beq_ddash name.data hdne, Bool.not_true,
        Bool.false_or, Bool.or_false, if_false, if_true, strDrop,
        List.drop_succ_cons, List.drop_zero, hsplit, hfind, hreq, mk_data]
      simp
  · intro opts pre c f o hpre hfind hreq hhead fuel v rest idx res
    obtain ⟨hd, tl, hcons⟩ : ∃ hd tl, pre ++ [c] = hd :: tl := by
      cases pre <;> exact ⟨_, _, rfl⟩
    have hhd : hd ≠ '-' := by
      rw [hcons] at hhead
      simpa using hhead
    have hshort := shortLoop_noarg_prefix opts ⟨pre ++ [c]⟩ idx f pre hpre c o hfind hreq res
    constructor <;>
    · rw [hcons]
      simp only [parseLoop, strStartsWith_dash, mk_cons2_beq_dash,
        strStartsWith_ddash_of_ne hd tl hhd, Bool.not_true, Bool.false_or,
        Bool.or_false, if_false, strDrop, List.drop_succ_cons, List.drop_zero]
      rw [← hcons, hshort]
      simp

/-- C4 witness: the general cluster step applied to the concrete x/y/z
table on the element `-xyz`. -/
theorem parse_short_cluster_noarg_witness :
    parseLoop xyz_table.options 1 [(⟨['-', 'x', 'y', 'z']⟩ : String)] 0 ⟨[], []⟩ =
      parseLoop xyz_table.options 0 [] 1
        ((((⟨[], []⟩ : ParseResult).add_parsed_option "xopt").add_parsed_option
          "yopt").add_parsed_option "zopt") :=
  (parse_short_cluster_noarg xyz_table.options 'x' 'y' 'z'
    ⟨"x", "xopt", "", ""⟩ ⟨"y", "yopt", "", ""⟩ ⟨"z", "zopt", "", ""⟩
    rfl rfl rfl rfl rfl rfl (by decide) 0 [] 0 ⟨[], []⟩).1

/-- C2 witness: on the fuzz-harness table, `--reqarg` and `-r` each bind a
following `--` element as their argument value, and fail at the option's
own index without one. -/
theorem parse_required_argument_consumes_next_witness :
    (parseLoop default_table.options 1 [("--" ++ "reqarg"), "--"] 0 ⟨[], []⟩ =
      parseLoop default_table.options 0 [] 2
        ((⟨[], []⟩ : ParseResult).add_parsed_option_arg "reqarg" "--") ∧
     parseLoop default_table.options 1 [("--" ++ "reqarg")] 0 ⟨[], []⟩ =
      .error ⟨0, "missing required argument for --" ++ "reqarg"⟩) ∧
    (parseLoop default_table.options 1 [(⟨'-' :: ([] ++ ['r'])⟩ : String), "--"] 0 ⟨[], []⟩ =
      parseLoop default_table.options 0 [] 2
        ((List.foldl (fun (r : ParseResult) (_ : Char) =>
          r.add_parsed_option (Opt.long_flag ⟨"", "", "", ""⟩)) ⟨[], []⟩
          []).add_parsed_option_arg "reqarg" "--") ∧
     parseLoop default_table.options 1 [(⟨'-' :: ([] ++ ['r'])⟩ : String)] 0 ⟨[], []⟩ =
      .error ⟨0, "missing required argument for " ++ (⟨['r']⟩ : String) ++
        " in -" ++ ⟨[] ++ ['r']⟩⟩) :=
  ⟨parse_required_argument_consumes_next.1 default_table.options "reqarg"
      ⟨"r", "reqarg", " ARG", "option with required argument"⟩
      rfl rfl (by decide) (by decide) 0 "--" [] 0 ⟨[], []⟩,
   parse_required_argument_consumes_next.2 default_table.options [] 'r'
      (fun _ => ⟨"", "", "", ""⟩)
      ⟨"r", "reqarg", " ARG", "option with required argument"⟩
      (by simp) rfl rfl (by decide) 0 "--" [] 0 ⟨[], []⟩⟩

/-- Base resolution is the identity for base 10. -/
theorem stripBasePrefix_ten (cs : List Char) : stripBasePrefix 10 cs = (10, cs) := by
  simp [stripBasePrefix]

/-- Stripping the sign off a minus-led character sequence. -/
theorem stripSign_minus (t : List Char) : stripSign ('-' :: t) = (true, t) := by
  simp [stripSign]

/-- Stripping the sign off a sequence not led by a minus. -/
theorem stripSign_of_ne (t : List Char) (h : t.head? ≠ some '-') :
    stripSign t = (false, t) := by
  simp [stripSign, h]

/-- C6: For a non-bool integral target of width `w`, conversion of a
minus-led digit string of magnitude `v` succeeds for an unsigned target
by two's-complement wraparound (so uint8 "-1" gives 255), while for a
signed target it fails out-of-range exactly when the magnitude exceeds
the range after accounting for the sign: negative values up to `2^(w-1)`
and positive values up to `2^(w-1)-1` succeed (so int8 "128" fails while
"-128" gives -128). -/
theorem convert_to_sign_and_range :
    (∀ (w : Nat), 0 < w → ∀ (t : List Char) (v : Nat),
      fromCharsNat 10 t = (some v, []) →
      v < 2 ^ w →
      (convert_to w false ⟨'-' :: t⟩ 10 = .ok (((2 ^ w - v) % 2 ^ w : Nat)) ∧
       (v ≤ 2 ^ (w - 1) → convert_to w true ⟨'-' :: t⟩ 10 = .ok (-(v : Int))) ∧
       (2 ^ (w - 1) < v →
         convert_to w true ⟨'-' :: t⟩ 10 = .error .result_out_of_range))) ∧
    (∀ (w : Nat), 0 < w → ∀ (t : List Char) (v : Nat),
      t.head? ≠ some '-' →
      fromCharsNat 10 t = (some v, []) →
      ((v ≤ 2 ^ (w - 1) - 1 → convert_to w true ⟨t⟩ 10 = .ok (v : Int)) ∧
       (2 ^ (w - 1) - 1 < v →
         convert_to w true ⟨t⟩ 10 = .error .result_out_of_range))) ∧
    convert_to 8 false "-1" 10 = .ok 255 ∧
    convert_to 8 true "128" 10 = .error .result_out_of_range ∧
    convert_to 8 true "-128" 10 = .ok (-128) := by
  refine ⟨?_, ?_, rfl, rfl, rfl⟩
  · intro w hw t v hparse hlt
    have hpow : (2 : Nat) ^ w = 2 * 2 ^ (w - 1) := by
      conv_lhs => rw [show w = (w - 1) + 1 by omega]
      ring
    have hpos : (0 : Nat) < 2 ^ (w - 1) := pow_pos (by norm_num) _
    refine ⟨?_, fun hle => ?_, fun hgt => ?_⟩
    · simp only [convert_to, stripSign_minus, stripBasePrefix_ten, hparse]
      rw [if_neg (not_le.mpr hlt)]
      simp
    · simp only [convert_to, stripSign_minus, stripBasePrefix_ten, hparse]
      rw [if_neg (not_le.mpr hlt)]
      rw [if_neg (by simp : ¬ ([] : List Char) ≠ [])]
      simp only [if_true, true_and, ite_true, Bool.true_eq]
      rw [if_neg (show ¬ 2 ^ (w - 1) - 1 + 1 < v by omega)]
      rcases Nat.eq_zero_or_pos v with hv | hv
      · subst hv
        simp only [Nat.sub_zero, Nat.mod_self]
        rw [if_neg (by omega)]
        simp
      · have hmod : (2 ^ w - v) % 2 ^ w = 2 ^ w - v := Nat.mod_eq_of_lt (by omega)
        rw [hmod, if_pos (show 2 ^ (w - 1) ≤ 2 ^ w - v by omega)]
        rw [Nat.cast_sub (by omega : v ≤ 2 ^ w)]
        push_cast
        ring_nf
    · simp only [convert_to, stripSign_minus, stripBasePrefix_ten, hparse]
      rw [if_neg (not_le.mpr hlt)]
      rw [if_neg (by simp : ¬ ([] : List Char) ≠ [])]
      simp only [if_true, true_and, ite_true, Bool.true_eq]
      rw [if_pos (show 2 ^ (w - 1) - 1 + 1 < v by omega)]
  · intro w hw t v hhead hparse
    have hpow : (2 : Nat) ^ w = 2 * 2 ^ (w - 1) := by
      conv_lhs => rw [show w = (w - 1) + 1 by omega]
      ring
    have hpos : (0 : Nat) < 2 ^ (w - 1) := pow_pos (by norm_num) _
    refine ⟨fun hle => ?_, fun hgt => ?_⟩
    · simp only [convert_to, mk_data, stripSign_of_ne t hhead, stripBasePrefix_ten,
        hparse]
      rw [if_neg (show ¬ 2 ^ w ≤ v by omega)]
      rw [if_neg (by simp : ¬ ([] : List Char) ≠ [])]
      simp only [Bool.true_eq_false, Bool.false_eq_true, if_false, ite_false, true_and,
          Nat.add_zero]
      rw [if_neg (show ¬ 2 ^ (w - 1) - 1 < v by omega)]
      rw [if_neg (show ¬ 2 ^ (w - 1) ≤ v by omega)]
    · rcases le_or_lt (2 ^ w) v with hge | hlt2
      · simp only [convert_to, mk_data, stripSign_of_ne t hhead, stripBasePrefix_ten,
          hparse]
        rw [if_pos hge]
      · simp only [convert_to, mk_data, stripSign_of_ne t hhead, stripBasePrefix_ten,
          hparse]
        rw [if_neg (not_le.mpr hlt2)]
        rw [if_neg (by simp : ¬ ([] : List Char) ≠ [])]
        simp only [Bool.true_eq_false, Bool.false_eq_true, if_false, ite_false, true_and,
          Nat.add_zero]
        rw [if_pos (show 2 ^ (w - 1) - 1 < v by omega)]

/-- C6 witness. -/
theorem convert_to_sign_and_range_witness :
    convert_to 8 false ⟨'-' :: ['1']⟩ 10 = .ok (((2 ^ 8 - 1) % 2 ^ 8 : Nat)) ∧
    convert_to 8 true ⟨['1']⟩ 10 = .ok ((1 : Nat) : Int) :=
  ⟨(convert_to_sign_and_range.1 8 (by decide) ['1'] 1 (by decide) (by decide)).1,
   (convert_to_sign_and_range.2.1 8 (by decide) ['1'] 1 (by decide) (by decide)).1
     (by decide)⟩

/-- C7 counterexample: trailing characters do not always produce the
claimed invalid-argument condition — when the digit run overflows the
target's unsigned range, `from_chars` reports out-of-range before the
whole-string-consumed check runs, so `convert_to<uint8_t>("999x", 0)`
fails out-of-range although `x` is a trailing character. -/
theorem convert_to_trailing_overflow_counterexample :
    convert_to 8 false "999x" 0 = .error .result_out_of_range ∧
    convert_to 8 false "999x" 0 ≠ .error .invalid_argument := by
  refine ⟨rfl, fun hcon => ?_⟩
  rw [show convert_to 8 false "999x" 0 = .error .result_out_of_range from rfl] at hcon
  injection hcon with h2
  exact absurd h2 (by decide)

/-- C7 (amended): With base 0 ("auto"), conversion detects base 16 from a
`0x`/`0X` prefix, base 2 from `0b`/`0B`, base 8 from a leading `0` with
no base hint following, and base 10 otherwise (after the optional leading
minus); the entire remaining substring must then be consumed as digits of
the resolved base — when the parsed digit run fits the target's unsigned
range, any trailing characters, leading whitespace or embedded separators
make the conversion fail with an invalid-argument condition, while a
digit run that overflows the unsigned range fails with an out-of-range
condition even when trailing characters follow. -/
theorem convert_to_auto_base_detection :
    (∀ cs : List Char, stripBasePrefix 0 ('0' :: 'x' :: cs) = (16, cs)) ∧
    (∀ cs : List Char, stripBasePrefix 0 ('0' :: 'X' :: cs) = (16, cs)) ∧
    (∀ cs : List Char, stripBasePrefix 0 ('0' :: 'b' :: cs) = (2, cs)) ∧
    (∀ cs : List Char, stripBasePrefix 0 ('0' :: 'B' :: cs) = (2, cs)) ∧
    (∀ (c : Char) (cs : List Char), c ≠ 'x' → c ≠ 'X' → c ≠ 'b' → c ≠ 'B' →
      stripBasePrefix 0 ('0' :: c :: cs) = (8, c :: cs)) ∧
    (∀ cs : List Char, cs.head? ≠ some '0' → stripBasePrefix 0 cs = (10, cs)) ∧
    stripBasePrefix 0 ['0'] = (10, ['0']) ∧
    (∀ (w : Nat) (sgnd : Bool) (cs : List Char) (base b2 : Nat) (cs2 : List Char)
      (v : Nat) (rest : List Char),
      cs.head? ≠ some '-' →
      stripBasePrefix base cs = (b2, cs2) →
      fromCharsNat b2 cs2 = (some v, rest) →
      rest ≠ [] →
      convert_to w sgnd ⟨cs⟩ base =
        (if 2 ^ w ≤ v then .error .result_out_of_range
          else .error .invalid_argument)) ∧
    (∀ (w : Nat) (sgnd : Bool) (t : List Char) (base b2 : Nat) (cs2 : List Char)
      (v : Nat) (rest : List Char),
      stripBasePrefix base t = (b2, cs2) →
      fromCharsNat b2 cs2 = (some v, rest) →
      rest ≠ [] →
      convert_to w sgnd ⟨'-' :: t⟩ base =
        (if 2 ^ w ≤ v then .error .result_out_of_range
          else .error .invalid_argument)) ∧
    convert_to 32 true "0x20" 0 = .ok 32 ∧
    convert_to 32 true "-0x20" 0 = .ok (-32) ∧
    convert_to 32 true "0644" 0 = .ok 420 ∧
    convert_to 32 true "0b1011" 0 = .ok 11 ∧
    convert_to 32 true "20h" 10 = .error .invalid_argument ∧
    convert_to 32 true "-20h" 10 = .error .invalid_argument ∧
    convert_to 32 true " 42" 10 = .error .invalid_argument ∧
    convert_to 32 true "42 " 10 = .error .invalid_argument ∧
    convert_to 32 true "4_2" 10 = .error .invalid_argument ∧
    convert_to 8 false "999x" 0 = .error .result_out_of_range ∧
    convert_to 8 true "-999x" 0 = .error .result_out_of_range := by
  refine ⟨fun cs => rfl, fun cs => rfl, fun cs => rfl, fun cs => rfl,
    ?_, ?_, rfl, ?_, ?_, rfl, rfl, rfl, rfl, rfl, rfl, rfl, rfl, rfl, rfl, rfl⟩
  · intro c cs h1 h2 h3 h4
    simp [stripBasePrefix, h1, h2, h3, h4]
  · intro cs h
    rcases cs with _ | ⟨c, _ | ⟨c2, t⟩⟩
    · rfl
    · have hc : c ≠ '0' := by simpa using h
      simp [stripBasePrefix, hc]
    · have hc : c ≠ '0' := by simpa using h
      simp [stripBasePrefix, hc]
  · intro w sgnd cs base b2 cs2 v rest hhead hstrip hparse hrest
    simp only [convert_to, mk_data, stripSign_of_ne cs hhead, hstrip, hparse]
    rcases le_or_lt (2 ^ w) v with hge | hlt
    · rw [if_pos hge, if_pos hge]
    · rw [if_neg (not_le.mpr hlt), if_pos hrest, if_neg (not_le.mpr hlt)]
  · intro w sgnd t base b2 cs2 v rest hstrip hparse hrest
    simp only [convert_to, stripSign_minus, hstrip, hparse]
    rcases le_or_lt (2 ^ w) v with hge | hlt
    · rw [if_pos hge, if_pos hge]
    · rw [if_neg (not_le.mpr hlt), if_pos hrest, if_neg (not_le.mpr hlt)]

/-- C7 witness. -/
theorem convert_to_auto_base_detection_witness :
    stripBasePrefix 0 ('0' :: '6' :: ['4', '4']) = (8, '6' :: ['4', '4']) ∧
    stripBasePrefix 0 ['2', '0'] = (10, ['2', '0']) ∧
    convert_to 8 false ⟨['2', '0', 'h']⟩ 10 =
      (if 2 ^ 8 ≤ 20 then Except.error Errc.result_out_of_range
        else Except.error Errc.invalid_argument) ∧
    convert_to 8 false ⟨['9', '9', '9', 'x']⟩ 0 =
      (if 2 ^ 8 ≤ 999 then Except.error Errc.result_out_of_range
        else Except.error Errc.invalid_argument) ∧
    convert_to 8 true ⟨'-' :: ['2', '0', 'h']⟩ 10 =
      (if 2 ^ 8 ≤ 20 then Except.error Errc.result_out_of_range
        else Except.error Errc.invalid_argument) :=
  ⟨convert_to_auto_base_detection.2.2.2.2.1 '6' ['4', '4']
      (by decide) (by decide) (by decide) (by decide),
   convert_to_auto_base_detection.2.2.2.2.2.1 ['2', '0'] (by decide),
   convert_to_auto_base_detection.2.2.2.2.2.2.2.1 8 false ['2', '0', 'h'] 10 10
      ['2', '0', 'h'] 20 ['h'] (by decide) rfl (by decide) (by decide),
   convert_to_auto_base_detection.2.2.2.2.2.2.2.1 8 false ['9', '9', '9', 'x'] 0 10
      ['9', '9', '9', 'x'] 999 ['x'] (by decide) rfl (by decide) (by decide),
   convert_to_auto_base_detection.2.2.2.2.2.2.2.2.1 8 true ['2', '0', 'h'] 10 10
      ['2', '0', 'h'] 20 ['h'] rfl (by decide) (by decide)⟩

/-- `find_if` never returns more characters than it was given. -/
theorem find_if_length_le (p : Char → Bool) (l : List Char) :
    (find_if p l).length ≤ l.length := by
  induction l with
  | nil => simp [find_if]
  | cons c cs ih =>
    simp only [find_if]
    split
    · exact le_refl _
    · exact le_trans ih (by simp)

/-- The character at a non-empty `find_if` result satisfies the predicate. -/
theorem find_if_head (p : Char → Bool) (l : List Char) (c : Char) (t : List Char)
    (h : find_if p l = c :: t) : p c = true := by
  induction l with
  | nil => simp [find_if] at h
  | cons d ds ih =>
    simp only [find_if] at h
    by_cases hd : p d
    · rw [if_pos hd] at h
      obtain ⟨rfl, -⟩ := List.cons.injEq .. ▸ h
      exact hd
    · rw [if_neg hd] at h
      exact ih h

/-- `find_if` finds something when some character satisfies the predicate. -/
theorem find_if_ne_nil (p : Char → Bool) (l : List Char)
    (h : ∃ c ∈ l, p c = true) : find_if p l ≠ [] := by
  induction l with
  | nil => simp at h
  | cons d ds ih =>
    simp only [find_if]
    split
    · simp
    · rename_i hd
      rcases h with ⟨c, hc, hpc⟩
      rcases List.mem_cons.mp hc with rfl | hmem
      · exact absurd hpc (by simpa using hd)
      · exact ih ⟨c, hmem, hpc⟩

/-- The wrap loop's accumulated line list is never empty when it starts
from a non-empty accumulator or an unfinished line, provided enough fuel
and the invariant that the scan position sits on a space. -/
theorem wrapLoop_ne_nil (width : Nat) :
    ∀ (fuel : Nat) (line_start space_begin : List Char) (acc : List (List Char)),
      space_begin.length < fuel →
      (∀ c t, space_begin = c :: t → c = ' ') →
      (line_start ≠ [] ∨ acc ≠ []) →
      wrapLoop width fuel line_start space_begin acc ≠ [] := by
  intro fuel
  induction fuel with
  | zero =>
    intro ls sb acc hfuel _ _
    exact absurd hfuel (Nat.not_lt_zero _)
  | succ fuel ih =>
    intro ls sb acc hfuel hsp hne
    rcases sb with _ | ⟨c, t⟩
    · simp only [wrapLoop]
      split
      · rename_i hemp
        rcases hne with h1 | h2
        · exact absurd (List.isEmpty_iff.mp hemp) h1
        · exact h2
      · simp
    · have hc : c = ' ' := hsp c t rfl
      have hse : find_if (fun ch => !(ch == ' ')) (c :: t) =
          find_if (fun ch => !(ch == ' ')) t := by
        simp [find_if, hc]
      have hlen2 :
          (find_if (fun ch => ch == ' ')
            (find_if (fun ch => !(ch == ' ')) (c :: t))).length ≤ t.length := by
        rw [hse]
        exact le_trans (find_if_length_le _ _) (find_if_length_le _ _)
      have hflen : (find_if (fun ch => ch == ' ')
          (find_if (fun ch => !(ch == ' ')) (c :: t))).length < fuel := by
        have : t.length < fuel := by simpa using Nat.lt_of_succ_lt_succ hfuel
        omega
      have hhd : ∀ c2 t2,
          find_if (fun ch => ch == ' ')
            (find_if (fun ch => !(ch == ' ')) (c :: t)) = c2 :: t2 → c2 = ' ' := by
        intro c2 t2 heq
        simpa using find_if_head _ _ _ _ heq
      simp only [wrapLoop]
      split
      · exact ih _ _ _ hflen hhd (Or.inr (by simp))
      · exact ih _ _ _ hflen hhd hne

/-- `word_wrap` produces at least one line when the text contains a
non-space character. -/
theorem word_wrap_ne_nil (sv : List Char) (width : Nat)
    (h : ∃ c ∈ sv, c ≠ ' ') : word_wrap sv width ≠ [] := by
  have hls : find_if (fun ch => !(ch == ' ')) sv ≠ [] := by
    apply find_if_ne_nil
    rcases h with ⟨c, hc, hne⟩
    exact ⟨c, hc, by simp [hne]⟩
  simp only [word_wrap]
  apply wrapLoop_ne_nil
  · exact Nat.lt_succ_of_le (le_trans (find_if_length_le _ _) (find_if_length_le _ _))
  · intro c t heq
    simpa using find_if_head _ _ _ _ heq
  · exact Or.inl hls

/-- String concatenation concatenates the character data. -/
theorem str_data_append (a b : String) : (a ++ b).data = a.data ++ b.data := rfl

/-- A string whose first character exists is not empty. -/
theorem ne_empty_of_head (s : String) (c : Char) (h : s.data.head? = some c) :
    s ≠ "" := by
  intro hcon
  subst hcon
  simp at h

/-- The head of a concatenation is the head of a non-empty left part. -/
theorem head?_append_left (a b : List Char) (c : Char) (h : a.head? = some c) :
    (a ++ b).head? = some c := by
  cases a with
  | nil => simp at h
  | cons x xs => simpa using h

/-- `descLines` only ever appends to its accumulator. -/
theorem descLines_data (fl : Nat) :
    ∀ (ls : List (List Char)) (lead : Nat) (acc : String),
      ∃ s : List Char, (descLines fl ls lead acc).data = acc.data ++ s := by
  intro ls
  induction ls with
  | nil =>
    intro lead acc
    exact ⟨[], by simp [descLines]⟩
  | cons l ls ih =>
    intro lead acc
    obtain ⟨s, hs⟩ := ih fl (acc ++ spaces lead ++ ⟨l⟩ ++ "\n")
    refine ⟨(spaces lead).data ++ l ++ ['\n'] ++ s, ?_⟩
    simp only [descLines]
    rw [hs]
    simp only [str_data_append]
    simp [List.append_assoc, show ("\n" : String).data = ['\n'] from rfl]

/-- A non-empty line list always leaves a line break as the last character
of the help text built by `descLines`. -/
theorem descLines_getLast (fl : Nat) :
    ∀ (ls : List (List Char)) (lead : Nat) (acc : String), ls ≠ [] →
      (descLines fl ls lead acc).data.getLast? = some '\n' := by
  intro ls
  induction ls with
  | nil =>
    intro lead acc h
    exact absurd rfl h
  | cons l ls ih =>
    intro lead acc _
    rcases ls with _ | ⟨l2, ls2⟩
    · simp only [descLines]
      rw [str_data_append, show ("\n" : String).data = ['\n'] from rfl]
      simp [List.getLast?_concat]
    · exact ih fl _ (by simp)

/-- The flags part of every option's help starts with a space. -/
theorem option_flags_head (o : Opt) : (option_flags o).data.head? = some ' ' := by
  simp only [option_flags]
  rw [str_data_append]
  apply head?_append_left
  by_cases hl : o.long_flag ≠ "" ∧ o.long_flag ≠ o.short_flag
  · rw [if_pos hl]
    rw [str_data_append]
    apply head?_append_left
    rw [str_data_append]
    apply head?_append_left
    rw [str_data_append]
    apply head?_append_left
    by_cases hs : o.short_flag = ""
    · rw [if_pos hs]
      rfl
    · rw [if_neg hs]
      rfl
  · rw [if_neg hl]
    by_cases hs : o.short_flag = ""
    · rw [if_pos hs]
      rfl
    · rw [if_neg hs]
      rfl

/-- The last character of a concatenation whose right part ends in `c`. -/
theorem getLast?_append_right (l1 l2 : List Char) (c : Char)
    (h : l2.getLast? = some c) : (l1 ++ l2).getLast? = some c := by
  rw [List.getLast?_append_of_ne_nil l1 (fun hnil => by simp [hnil] at h)]
  exact h

/-- Every per-option help block is non-empty, starts with a space (so it
never opens with a blank line) and ends with a line break, provided the
wrap width is zero or the option's description contains a non-space
character. -/
theorem option_help_block (fl lw : Nat) (o : Opt)
    (h : lw = 0 ∨ ∃ c ∈ o.description.data, c ≠ ' ') :
    option_help fl lw o ≠ "" ∧ (option_help fl lw o).data.head? = some ' ' ∧
      (option_help fl lw o).data.getLast? = some '\n' := by
  have hofh := option_flags_head o
  have hpad : ∀ pad : String, pad.data.head? = some ' ' →
      ∀ d : String, (pad ++ spaces (fl - (option_flags o).length) ++ d ++ "\n").data.getLast? = some '\n' := by
    intro pad _ d
    rw [str_data_append, show ("\n" : String).data = ['\n'] from rfl]
    simp [List.getLast?_concat]
  simp only [option_help]
  by_cases hp : fl < (option_flags o).length + 2
  · rw [if_pos hp]
    by_cases hw : lw ≠ 0
    · rw [if_pos hw]
      have hd : ∃ c ∈ o.description.data, c ≠ ' ' := by
        rcases h with h0 | hd
        · exact absurd h0 hw
        · exact hd
      have hww := word_wrap_ne_nil o.description.data (lw - fl) hd
      obtain ⟨s, hs⟩ :=
        descLines_data fl (word_wrap o.description.data (lw - fl)) fl
          (option_flags o ++ "\n")
      have hh : (descLines fl (word_wrap o.description.data (lw - fl)) fl
          (option_flags o ++ "\n")).data.head? = some ' ' := by
        rw [hs, str_data_append]
        rw [List.append_assoc]
        exact head?_append_left _ _ _ hofh
      exact ⟨ne_empty_of_head _ _ hh, hh, descLines_getLast fl _ _ _ hww⟩
    · rw [if_neg hw]
      have hh : ((option_flags o ++ "\n") ++ spaces fl ++ o.description ++
          "\n").data.head? = some ' ' := by
        simp only [str_data_append, List.append_assoc]
        exact head?_append_left _ _ _ hofh
      refine ⟨ne_empty_of_head _ _ hh, hh, ?_⟩
      rw [str_data_append, show ("\n" : String).data = ['\n'] from rfl]
      exact getLast?_append_right _ _ _ rfl
  · rw [if_neg hp]
    by_cases hw : lw ≠ 0
    · rw [if_pos hw]
      have hd : ∃ c ∈ o.description.data, c ≠ ' ' := by
        rcases h with h0 | hd
        · exact absurd h0 hw
        · exact hd
      have hww := word_wrap_ne_nil o.description.data (lw - fl) hd
      obtain ⟨s, hs⟩ :=
        descLines_data fl (word_wrap o.description.data (lw - fl))
          (fl - (option_flags o).length) (option_flags o)
      have hh : (descLines fl (word_wrap o.description.data (lw - fl))
          (fl - (option_flags o).length) (option_flags o)).data.head? = some ' ' := by
        rw [hs]
        exact head?_append_left _ _ _ hofh
      exact ⟨ne_empty_of_head _ _ hh, hh, descLines_getLast fl _ _ _ hww⟩
    · rw [if_neg hw]
      have hh : (option_flags o ++ spaces (fl - (option_flags o).length) ++
          o.description ++ "\n").data.head? = some ' ' := by
        simp only [str_data_append, List.append_assoc]
        exact head?_append_left _ _ _ hofh
      refine ⟨ne_empty_of_head _ _ hh, hh, ?_⟩
      rw [str_data_append, show ("\n" : String).data = ['\n'] from rfl]
      simp [List.getLast?_concat]

/-- C10 (amended): for every declared option set and wrap width, if the
width is zero or every option's description contains a non-space
character, the help string is the concatenation of one block per option,
each block non-empty, starting with a space and ending with a line break
— so consecutive options never share a line and no option opens with a
blank line. (The counterexample shows the restriction is needed: with a
nonzero width and an empty description an option's block has no line
break at all.) -/
theorem get_option_help_blocks (p : OptionParser) (width : Nat)
    (h : width = 0 ∨ ∀ o ∈ p.options, ∃ c ∈ o.description.data, c ≠ ' ') :
    ∃ blocks : List String,
      p.get_option_help width = String.join blocks ∧
      blocks.length = p.options.length ∧
      ∀ b ∈ blocks, b ≠ "" ∧ b.data.head? = some ' ' ∧
        b.data.getLast? = some '\n' := by
  refine ⟨p.options.map (option_help (min flags_len_limit (max_flags_length p.options))
      (if width ≠ 0 ∧ width < min flags_len_limit (max_flags_length p.options)
        then min flags_len_limit (max_flags_length p.options) else width)),
    rfl, by simp, ?_⟩
  intro b hb
  obtain ⟨o, ho, rfl⟩ := List.mem_map.mp hb
  apply option_help_block
  rcases h with h0 | hne
  · left
    simp [h0]
  · right
    exact hne o ho

/-- C10 witness. -/
theorem get_option_help_blocks_witness :
    ∃ blocks : List String,
      (((⟨[]⟩ : OptionParser).add_option "f" "foo" "" "desc").get_option_help 0 =
        String.join blocks) ∧
      blocks.length = ((⟨[]⟩ : OptionParser).add_option "f" "foo" "" "desc").options.length ∧
      ∀ b ∈ blocks, b ≠ "" ∧ b.data.head? = some ' ' ∧
        b.data.getLast? = some '\n' :=
  get_option_help_blocks ((⟨[]⟩ : OptionParser).add_option "f" "foo" "" "desc") 0
    (Or.inl rfl)
